import Mathlib

/-!
Verification development for the pivot-table (contingency-table) engine in
`modules/s3/s3report.py` (classes `S3Report` and `S3ContingencyTable`).

The source is Python 2.  We shallowly embed the dynamically-typed values the
engine manipulates as an inductive type `PyVal`, Python exceptions as an
explicit `Except PyErr` monad, and each relevant method of the source as a
Lean definition carrying the same name where possible (`pyAggregate` for
`S3Report._aggregate`, `expand` for `S3Report._expand`, `addLayer` for
`S3Report._add_layer`, `pyTop` for `S3ContingencyTable._top`, ...).

Domain of values: database field values in this engine are text, integers,
dates, NULL, or flat lists of such atoms (`list:` field types); nested lists
do not occur, so list values hold atoms.  Floating-point results appear only
in the `avg` method; they are modelled exactly with `Rat` (no claim below
depends on binary rounding).
-/

/-- Python exception kinds raised or caught by the embedded code. -/
inductive PyErr where
  | typeError
  | valueError
  | syntaxError
  | keyError
deriving DecidableEq, Repr

/-- Equality of embedded computations (results or exceptions) is decidable,
so concrete runs of the embedded code can be checked by `decide`. -/
instance {ε α : Type} [DecidableEq ε] [DecidableEq α] : DecidableEq (Except ε α) := fun a b =>
  match a, b with
  | .ok x, .ok y =>
      if h : x = y then .isTrue (by rw [h]) else .isFalse (by simp [h])
  | .error x, .error y =>
      if h : x = y then .isTrue (by rw [h]) else .isFalse (by simp [h])
  | .ok _, .error _ => .isFalse (by simp)
  | .error _, .ok _ => .isFalse (by simp)

/-- An atomic Python 2 value as handled by the engine: `None`, an integer
(also covering booleans, which are integers in Python 2), a text value, or a
date (modelled by its ordinal). -/
inductive PyAtom where
  | anone
  | aint (n : Int)
  | astr (s : String)
  | adate (d : Int)
deriving DecidableEq, Repr

/-- A Python value flowing through the engine: an atom or a flat list of
atoms (multi-valued `list:` field types hold atoms, never nested lists). -/
inductive PyVal where
  | atom (a : PyAtom)
  | plist (vs : List PyAtom)
deriving DecidableEq, Repr

/-- Shorthand embedding of a Python int. -/
def pint (n : Int) : PyVal := .atom (.aint n)

/-- Shorthand embedding of a Python str/unicode. -/
def pstr (s : String) : PyVal := .atom (.astr s)

/-- Shorthand embedding of a Python date value. -/
def pdate (d : Int) : PyVal := .atom (.adate d)

/-- Shorthand embedding of Python `None`. -/
def pnone : PyVal := .atom .anone

/-- CPython 2 cross-type ordering rank for the default comparison of
non-date atoms: `None` sorts below everything, numbers next (their type
name counts as the empty string), then by type name (`'list' < 'str'`).
Dates never reach this rank because their comparison raises. -/
def rankA : PyAtom → Nat
  | .anone => 0
  | .aint _ => 1
  | .astr _ => 3
  | .adate _ => 2   -- unreachable: date comparisons are handled before ranking

/-- Three-way comparison of two atoms with Python 2 semantics: dates
compare with dates numerically and raise `TypeError` against any other
type (`datetime` overrides rich comparison); same-type atoms compare
naturally; otherwise CPython 2 cross-type rank order applies. -/
def atomCmp : PyAtom → PyAtom → Except PyErr Ordering
  | .adate x, .adate y => .ok (compare x y)
  | .adate _, _ => .error .typeError
  | _, .adate _ => .error .typeError
  | .anone, .anone => .ok .eq
  | .aint x, .aint y => .ok (compare x y)
  | .astr x, .astr y => .ok (compare x y)
  | x, y => .ok (compare (rankA x) (rankA y))

/-- Python 2 lexicographic list comparison, element-wise via `atomCmp`;
a comparison failure inside the elements propagates. -/
def listCmp : List PyAtom → List PyAtom → Except PyErr Ordering
  | [], [] => .ok .eq
  | [], _ :: _ => .ok .lt
  | _ :: _, [] => .ok .gt
  | x :: xs, y :: ys =>
      match atomCmp x y with
      | .error e => .error e
      | .ok .eq => listCmp xs ys
      | .ok c => .ok c

/-- Three-way comparison of two engine values with Python 2 semantics;
a list ranks between numbers and strings (`'list' < 'str'`, rank 2), and a
date raises against anything that is not a date. -/
def pyCmp : PyVal → PyVal → Except PyErr Ordering
  | .atom x, .atom y => atomCmp x y
  | .plist x, .plist y => listCmp x y
  | .atom x, .plist _ =>
      match x with
      | .adate _ => .error .typeError
      | _ => .ok (compare (rankA x) 2)
  | .plist _, .atom y =>
      match y with
      | .adate _ => .error .typeError
      | _ => .ok (compare 2 (rankA y))

/-- Python `+` on engine values: int+int, str+str, list+list succeed;
every other combination (including anything involving a date or `None`)
raises `TypeError`. -/
def pyAdd : PyVal → PyVal → Except PyErr PyVal
  | .atom (.aint a), .atom (.aint b) => .ok (.atom (.aint (a + b)))
  | .atom (.astr a), .atom (.astr b) => .ok (.atom (.astr (a ++ b)))
  | .plist a, .plist b => .ok (.plist (a ++ b))
  | _, _ => .error .typeError

/-- The fold inside Python `min(seq)`: keep the current minimum `m`,
replace it whenever the next element compares strictly below it. -/
def pyMinFold (m : PyVal) : List PyVal → Except PyErr PyVal
  | [] => .ok m
  | x :: xs =>
      match pyCmp x m with
      | .error e => .error e
      | .ok c => pyMinFold (if c = .lt then x else m) xs

/-- Python `min(seq)`: `ValueError` on an empty sequence, otherwise the
fold; a `TypeError` from an element comparison propagates. -/
def pyMin : List PyVal → Except PyErr PyVal
  | [] => .error .valueError
  | v :: vs => pyMinFold v vs

/-- The fold inside Python `max(seq)`. -/
def pyMaxFold (m : PyVal) : List PyVal → Except PyErr PyVal
  | [] => .ok m
  | x :: xs =>
      match pyCmp x m with
      | .error e => .error e
      | .ok c => pyMaxFold (if c = .gt then x else m) xs

/-- Python `max(seq)`: `ValueError` on an empty sequence. -/
def pyMax : List PyVal → Except PyErr PyVal
  | [] => .error .valueError
  | v :: vs => pyMaxFold v vs

/-- Python `sum(seq)`: left fold of `+` starting from the integer `0`
(so `sum([]) == 0`, and any non-integer element raises `TypeError` when
added to the integer accumulator). -/
def pySumAux (acc : PyVal) : List PyVal → Except PyErr PyVal
  | [] => .ok acc
  | x :: xs =>
      match pyAdd acc x with
      | .error e => .error e
      | .ok a => pySumAux a xs

/-- Python `sum(seq)` as the explicit left fold. -/
def pySum (vs : List PyVal) : Except PyErr PyVal :=
  pySumAux (pint 0) vs

/-- Result of `S3Report._aggregate`: Python returns (dynamically typed)
either `None`, the value list itself (`list`), an integer count, a single
value (`min`/`max`/`sum`), or a float average. -/
inductive AggRes where
  | anone
  | alist (vs : List PyVal)
  | acount (n : Nat)
  | aval (v : PyVal)
  | aavg (q : Rat)
deriving DecidableEq, Repr

/-- Supported aggregation methods (`S3Report.METHODS`). -/
def METHODS : List String := ["list", "count", "min", "max", "sum", "avg"]

/-- Python 2 `needle in haystack` on strings is a substring test; the
source's `method in ("avg")` is exactly that, because `("avg")` is a plain
string, not a tuple. -/
def strIn (needle hay : String) : Bool :=
  decide (needle.data <:+: hay.data)

/-- `S3Report._aggregate(values, method)` (s3report.py lines 970-1028).

Branch by branch:
* `method is None or method == "list"`: return the values if the list is
  truthy (non-empty), else `None`;
* `"count"`: `len(values)`;
* `"min"`: `min(values)` under `except TypeError` — so a comparison
  `TypeError` is recovered to `None`, but the `ValueError` that `min`
  raises on an empty sequence is NOT caught and propagates;
* `"max"`/`"sum"`: the source's legacy `except TypeError, ValueError:`
  catches only `TypeError` (it binds the exception to the name
  `ValueError`), so again an empty-sequence `ValueError` propagates;
* `method in ("avg")`: a substring test (see `strIn`); empty input yields
  `0.0`, otherwise `sum(values) / float(len(values))`, with `TypeError`
  recovered to `None` (a non-integer successful sum would fail in the
  division, also a `TypeError`);
* any other method: return `None`.

The source's initial `if values is None` guard is omitted: every call site
in the module passes a list. -/
def pyAggregate (values : List PyVal) (method : Option String) : Except PyErr AggRes :=
  if method = none ∨ method = some "list" then
    .ok (if values.isEmpty then .anone else .alist values)
  else if method = some "count" then
    .ok (.acount values.length)
  else if method = some "min" then
    match pyMin values with
    | .ok v => .ok (.aval v)
    | .error .typeError => .ok .anone
    | .error e => .error e
  else if method = some "max" then
    match pyMax values with
    | .ok v => .ok (.aval v)
    | .error .typeError => .ok .anone
    | .error e => .error e
  else if method = some "sum" then
    match pySum values with
    | .ok v => .ok (.aval v)
    | .error .typeError => .ok .anone
    | .error e => .error e
  else if (match method with | some m => strIn m "avg" | none => false) then
    if values.length ≠ 0 then
      match pySum values with
      | .ok (.atom (.aint n)) => .ok (.aavg ((n : Rat) / (values.length : Rat)))
      | .ok _ => .ok .anone
      | .error .typeError => .ok .anone
      | .error e => .error e
    else .ok (.aavg 0)
  else
    .ok .anone

/-! ## Records, flattening and multi-value expansion -/

/-- First-occurrence deduplication with an explicit `seen` accumulator,
mirroring the source's `if i not in item_list: seen(i)` pattern
(s3report.py lines 672-683) and, at axis level, the first-seen-order
distinct grouping values (spec section 4.4). -/
def firstDedupAux {α : Type} [DecidableEq α] (seen : List α) : List α → List α
  | [] => []
  | x :: xs =>
      if x ∈ seen then firstDedupAux seen xs
      else x :: firstDedupAux (x :: seen) xs

/-- Deduplicate a list keeping the first occurrence of each element. -/
def firstDedup {α : Type} [DecidableEq α] (l : List α) : List α :=
  firstDedupAux [] l

/-- A raw record as delivered by the external resource, specialized to the
fields a report resolves (`_get_fields`): the primary key, the raw value of
the rows-dimension field, of the cols-dimension field and of the single fact
field referenced by layers.  `Option.none` stands for SQL NULL (Python
`None`); a multi-valued field holds a `PyVal.plist`. -/
structure Rec where
  pk : Int
  rowv : Option PyVal := none
  colv : Option PyVal := none
  factv : Option PyVal := none
deriving DecidableEq, Repr

/-- Which dimensions the report was asked for (`rows`/`cols` constructor
arguments; `false` = selector not given). -/
structure Cfg where
  useRows : Bool
  useCols : Bool
deriving DecidableEq, Repr

/-- A flattened data-frame item (`S3Report._flatten` output, lines 769-791):
the dict holds one entry per dimension field in `dfields` plus the primary
key.  A field's `Option.none` here means the field is absent from the dict
(its dimension was not requested); a NULL dimension value was already
replaced by the `"__NONE__"` sentinel. -/
structure FlatItem where
  rowv : Option PyVal
  colv : Option PyVal
  pk : PyVal
deriving DecidableEq, Repr

/-- Line 785-786: a missing/NULL dimension value becomes the explicit
sentinel `"__NONE__"` (the str-to-unicode normalization of line 787-788 is
the identity in this model). -/
def sentinelize : Option PyVal → PyVal
  | none => pstr "__NONE__"
  | some v => v

/-- `S3Report._flatten`: build the flat item for one record; dimension
fields are included only when requested, the primary key always. -/
def flatten (cfg : Cfg) (r : Rec) : FlatItem where
  rowv := if cfg.useRows then some (sentinelize r.rowv) else none
  colv := if cfg.useCols then some (sentinelize r.colv) else none
  pk := pint r.pk

/-- The fan-out choices one field value contributes in `S3Report._expand`
(lines 830-845): a list value yields one item per element — with a `None`
placeholder appended when the list is empty (`value.append(None)`, line
838) so the record is never dropped — and any other value yields the item
unchanged. -/
def expandVal : PyVal → List PyVal
  | .plist [] => [pnone]
  | .plist vs => vs.map .atom
  | v => [v]

/-- Fan-out choices for a possibly-absent field: a field not present in the
item is left untouched. -/
def expandOpt : Option PyVal → List (Option PyVal)
  | none => [none]
  | some v => (expandVal v).map some

/-- `S3Report._expand` on a whole item: the cartesian fan-out across all
fields of the item, one output item per combination.  The source folds
field by field over the dict (`for field in row`), each step replacing every
accumulated item by one copy per value of that field; the fold order is the
dict's iteration order, which only permutes the output sequence. -/
def expand (it : FlatItem) : List FlatItem :=
  (expandOpt it.rowv).flatMap (fun rv =>
    (expandOpt it.colv).flatMap (fun cv =>
      (expandVal it.pk).map (fun p => ⟨rv, cv, p⟩)))

/-- The deduplicated expanded item list inserted into the data frame
(lines 672-683: every expanded item is appended once, first occurrence
kept). -/
def itemsOf (cfg : Cfg) (records : List Rec) : List FlatItem :=
  firstDedup (records.flatMap (fun r => expand (flatten cfg r)))

/-! ## Axes and the cell grid

The grouping itself is performed by the external `pyvttbl` library
(`df.pivot(pkey, rows, cols, aggregate="tolist")`, line 689).  Modelled
from the spec: sections 4.4-4.5 specify the pivot's observable behaviour —
the row/column headers are the distinct values of the rows/cols field over
the expanded items in first-seen order, and each cell collects the primary
keys of the expanded items carrying that (row value, column value) pair.
The source additionally strips `None` padding entries from each cell list
(lines 916-921); the model produces the lists without padding. -/

/-- Distinct raw grouping values of the rows field, first-seen order
(meaningful only when the rows dimension is requested). -/
def rowKeys (cfg : Cfg) (records : List Rec) : List PyVal :=
  firstDedup ((itemsOf cfg records).filterMap (·.rowv))

/-- Distinct raw grouping values of the cols field, first-seen order. -/
def colKeys (cfg : Cfg) (records : List Rec) : List PyVal :=
  firstDedup ((itemsOf cfg records).filterMap (·.colv))

/-- Lines 693-707: the displayed axis value of one header, embedding the
Python expression `v != "__NONE__" and v or None`: the sentinel maps to
`None`, and — because `and`/`or` select by truthiness — so does every falsy
real value. -/
def pyFalsy : PyVal → Bool
  | .atom .anone => true
  | .atom (.aint n) => n == 0
  | .atom (.astr s) => s == ""
  | .atom (.adate _) => false
  | .plist vs => vs.isEmpty

/-- The `value` attribute stored in a row/column header `Storage`. -/
def axisVal (v : PyVal) : Option PyVal :=
  if v = pstr "__NONE__" then none
  else if pyFalsy v then none
  else some v

/-- Does the expanded item fall into grid position `(r, c)`?  An absent
dimension imposes no constraint (the whole record set is one bucket on
that axis). -/
def inCell (cfg : Cfg) (rks cks : List PyVal) (r c : Nat) (it : FlatItem) : Bool :=
  (!cfg.useRows || decide (it.rowv = rks.get? r)) &&
  (!cfg.useCols || decide (it.colv = cks.get? c))

/-- The record-id list of cell `(r, c)`: primary keys of the expanded items
in that bucket (`pt[r][c]` after `None` removal, kept in `cell[RECORDS]`). -/
def cellIds (cfg : Cfg) (records : List Rec) (r c : Nat) : List PyVal :=
  (((itemsOf cfg records).filter
      (inCell cfg (rowKeys cfg records) (colKeys cfg records) r c)).map (·.pk))

/-! ## Layer aggregation (`S3Report._add_layer`, lines 848-967)

The source mutates Python locals and `Storage` dicts; the embedding passes
the same state explicitly.  Two behaviours of the `fact is None` branch
(lines 929-934) deserve emphasis, because they are real behaviours of the
source, not modelling artifacts:

* `fact = pkey` rebinds the *local* `fact` for the remainder of the whole
  layer, so only the very first cell of the layer takes this branch; every
  later cell extracts the primary key as a surrogate fact through the
  generic branch.
* `row_values = row_records` makes the local `row_values` an *alias* of
  `row[RECORDS]` for the rest of that row: the cell ids extended into
  `row[RECORDS]` (line 925) and the per-cell value lists extended into
  `row_values` (line 947) then accumulate into the same list, which the row
  total aggregates (line 956).  `col_values = row_records` has no
  observable effect because `col_values` is re-fetched from `col[VALUES]`
  at the start of every cell (line 909) and the branch performs no further
  `col_values.extend`; in particular `col[VALUES]` receives nothing from
  this branch.
* `all_values = self.records.keys()` rebinds the grand-total collection to
  the list of distinct primary keys, which later cells keep extending.
-/

/-- What the local `fact` can hold inside `_add_layer`: the layer's fact
field, or the primary key substituted for an unspecified fact. -/
inductive FactSel where
  | pkf
  | factf
deriving DecidableEq, Repr

/-- `self.records[i]` — the record stored under primary-key value `i` in
the `Storage` dict of line 661 (for duplicate keys the last record wins). -/
def lookupRec (records : List Rec) (i : PyVal) : Option Rec :=
  (records.filter (fun r => pint r.pk = i)).getLast?

/-- `self.records.keys()`: the distinct primary-key values.  A Python dict
does not promise an order; the model uses first-insertion order, and no
claim below depends on the order of this list. -/
def storeKeys (records : List Rec) : List PyVal :=
  firstDedup (records.map (fun r => pint r.pk))

/-- `self._extract(records[i], fact)` for the two possible facts. -/
def extractFact : FactSel → Rec → Option PyVal
  | .pkf, r => some (pint r.pk)
  | .factf, r => r.factv

/-- Lines 936-942: collect the fact values of the records in a cell,
skipping records whose fact value is `None`; a missing store entry would
be a `KeyError` (unreachable from `__init__`, where every cell id is a
stored key). -/
def collectRaw (records : List Rec) (fs : FactSel) :
    List PyVal → Except PyErr (List PyVal)
  | [] => .ok []
  | i :: ids =>
      match lookupRec records i with
      | none => .error .keyError
      | some rec =>
          match extractFact fs rec with
          | none => collectRaw records fs ids
          | some v =>
              match collectRaw records fs ids with
              | .error e => .error e
              | .ok vs => .ok (v :: vs)

/-- One step of `reduce(lambda x, y: x.extend(y) or x, values)`:
`list.extend` accepts any iterable — a list contributes its elements, a
string its characters — and raises `TypeError` otherwise. -/
def pyExtend (acc : List PyAtom) : PyVal → Except PyErr (List PyAtom)
  | .plist ys => .ok (acc ++ ys)
  | .atom (.astr s) => .ok (acc ++ s.data.map (fun ch => .astr (String.mk [ch])))
  | _ => .error .typeError

def extendFold (acc : List PyAtom) : List PyVal → Except PyErr (List PyAtom)
  | [] => .ok acc
  | y :: ys =>
      match pyExtend acc y with
      | .error e => .error e
      | .ok a => extendFold a ys

/-- Lines 943-944: if the first collected value is a list (a multi-valued
fact), merge all values into one flat list of atomic values.  Only the
first element is inspected, exactly as in the source. -/
def flattenStep (values : List PyVal) : Except PyErr (List PyVal) :=
  match values with
  | .plist v0 :: rest =>
      match extendFold v0 rest with
      | .error e => .error e
      | .ok l => .ok (l.map PyVal.atom)
  | vs => .ok vs

/-- Lines 936-946: the value collection a cell feeds into `_aggregate` for
a resolved fact: extract, flatten, and — for the `list` and `count` methods
only — deduplicate (`values = list(set(values))`; CPython leaves the set's
order unspecified, the model keeps first occurrences, and no claim below
depends on the order of the deduplicated list). -/
def collectValues (records : List Rec) (fs : FactSel) (method : String)
    (ids : List PyVal) : Except PyErr (List PyVal) :=
  match collectRaw records fs ids with
  | .error e => .error e
  | .ok vs =>
      match flattenStep vs with
      | .error e => .error e
      | .ok vs =>
          if method = "list" ∨ method = "count" then .ok (firstDedup vs)
          else .ok vs

/-- The per-layer mutable state of `_add_layer`, threaded through the cell
loops.  `aliased = true` records that `row_values` currently aliases
`row[RECORDS]` (see the module comment above). -/
structure LayerSt where
  fact : Option FactSel
  allValues : List PyVal
  colValues : List (List PyVal)
  rowRecords : List PyVal
  rowValues : List PyVal
  aliased : Bool
  cellRow : List AggRes
deriving Repr

/-- The loop body for one cell (lines 900-953). -/
def doCell (records : List Rec) (method : String) (c : Nat) (ids : List PyVal)
    (st : LayerSt) : Except PyErr LayerSt := do
  -- line 925: row_records.extend(ids)  (col_records likewise, line 926;
  -- col[RECORDS] feeds no output of a single layer and is not tracked)
  let st := { st with rowRecords := st.rowRecords ++ ids }
  match st.fact with
  | none =>
      -- lines 929-934: fact = pkey; values = ids; row_values = row_records;
      -- col_values = row_records (no effect); all_values = records.keys()
      let st := { st with
        fact := some .pkf
        aliased := true
        allValues := storeKeys records }
      let v ← pyAggregate ids (some method)   -- line 952 with values = ids
      .ok { st with cellRow := st.cellRow ++ [v] }
  | some fs =>
      -- lines 936-949
      let values ← collectValues records fs method ids
      let st :=
        if st.aliased then { st with rowRecords := st.rowRecords ++ values }
        else { st with rowValues := st.rowValues ++ values }
      let st := { st with
        colValues := st.colValues.modify (· ++ values) c
        allValues := st.allValues ++ values }
      let v ← pyAggregate values (some method)  -- line 952
      .ok { st with cellRow := st.cellRow ++ [v] }

/-- The loop body for one row (lines 890-957): reset the row accumulators,
process every cell, then aggregate the row total from `row_values` — which
is `row[RECORDS]` when the alias was established in this row. -/
def doRow (records : List Rec) (method : String) (numcols : Nat)
    (idsAt : Nat → List PyVal) (st : LayerSt) :
    Except PyErr (LayerSt × List AggRes × AggRes) := do
  let st := { st with rowRecords := [], rowValues := [], aliased := false,
                      cellRow := [] }
  let st ← (List.range numcols).foldlM
    (fun st c => doCell records method c (idsAt c) st) st
  let total ← pyAggregate (if st.aliased then st.rowRecords else st.rowValues)
    (some method)   -- line 956
  .ok (st, st.cellRow, total)

/-- The observable result of one `_add_layer` call: per-cell aggregates,
row totals, column totals and the grand total for that layer. -/
structure LayerOut where
  cellVals : List (List AggRes)
  rowTotals : List AggRes
  colTotals : List AggRes
  grandTotal : AggRes
deriving DecidableEq, Repr

/-- `S3Report._add_layer`: refuse a method outside `METHODS` with
`SyntaxError` (lines 857-858) — this makes the `if method is None` fallback
of line 875 dead code, since `None` is not in `METHODS` either — then run
the row/cell loops and compute the totals (lines 889-966). -/
def addLayer (cfg : Cfg) (records : List Rec) (numrows numcols : Nat)
    (fact : Option FactSel) (method : Option String) :
    Except PyErr LayerOut := do
  match method with
  | none => .error .syntaxError
  | some m =>
    if m ∈ METHODS then do
      let st0 : LayerSt :=
        { fact := fact, allValues := [],
          colValues := List.replicate numcols [],
          rowRecords := [], rowValues := [], aliased := false, cellRow := [] }
      let (st, outs) ← (List.range numrows).foldlM
        (fun (acc : LayerSt × List (List AggRes × AggRes)) r => do
          let (st, cells, total) ←
            doRow records m numcols (fun c => cellIds cfg records r c) acc.1
          .ok (st, acc.2 ++ [(cells, total)])) (st0, [])
      -- lines 960-963: column totals from col[VALUES]
      let colTotals ← st.colValues.mapM (fun cv => pyAggregate cv (some m))
      -- line 966: grand total from all_values
      let grand ← pyAggregate st.allValues (some m)
      .ok { cellVals := outs.map (·.1), rowTotals := outs.map (·.2),
            colTotals := colTotals, grandTotal := grand }
    else .error .syntaxError

/-! ## Report construction (`S3Report.__init__`, lines 598-718) -/

/-- The report object, restricted to the attributes the claims read:
`empty`, the two axes (their `value` attributes), the grid dimensions, the
per-cell record-id lists, and each layer's aggregates. -/
structure Report where
  empty : Bool
  rowAxis : List (Option PyVal)
  colAxis : List (Option PyVal)
  numrows : Nat
  numcols : Nat
  cells : List (List (List PyVal))
  layerOuts : List LayerOut
deriving DecidableEq, Repr

/-- `S3Report.__init__`: refuse a report with neither rows nor cols
(lines 610-611, `raise SyntaxError`); with no records mark the report
empty and build nothing (lines 715-718); otherwise flatten, expand and
deduplicate the records, group them (external pivot, spec-modelled),
derive the axes (lines 691-707) and add every layer in turn
(lines 711-714), aborting on the first layer error. -/
def buildReport (cfg : Cfg) (records : List Rec)
    (layers : List (Option FactSel × Option String)) : Except PyErr Report :=
  if !cfg.useRows && !cfg.useCols then
    .error .syntaxError
  else if records.isEmpty then
    .ok { empty := true, rowAxis := [], colAxis := [], numrows := 0,
          numcols := 0, cells := [], layerOuts := [] }
  else
    let rks := rowKeys cfg records
    let cks := colKeys cfg records
    let numrows := if cfg.useRows then rks.length else 1
    let numcols := if cfg.useCols then cks.length else 1
    let rowAxis := if cfg.useRows then rks.map axisVal else [none]
    let colAxis := if cfg.useCols then cks.map axisVal else [none]
    let cells := (List.range numrows).map (fun r =>
      (List.range numcols).map (fun c => cellIds cfg records r c))
    match layers.mapM (fun l =>
        addLayer cfg records numrows numcols l.1 l.2) with
    | .error e => .error e
    | .ok louts =>
        .ok { empty := false, rowAxis := rowAxis, colAxis := colAxis,
              numrows := numrows, numcols := numcols, cells := cells,
              layerOuts := louts }

/-! ## Top-N-with-Others reduction (`S3ContingencyTable._top`, lines 1297-1321) -/

/-- Stable insertion into a descending-sorted list: the new element goes
before the first entry whose value is not above it, so among equal values
an element inserted later (i.e. originally earlier, see `stableSortDesc`)
comes first. -/
def insertDesc (x : String × Int) : List (String × Int) → List (String × Int)
  | [] => [x]
  | y :: ys => if x.2 < y.2 then y :: insertDesc x ys else x :: y :: ys

/-- The effect of `l.sort(lambda x, y: int(y[1]-x[1]))` for integer values:
the stable sort by value descending (Python's sort is stable, and for
integers the comparator `int(y[1]-x[1])` is exactly the descending
three-way comparison; a stable sort is uniquely determined by its
comparator, so this insertion sort computes the same list). -/
def stableSortDesc : List (String × Int) → List (String × Int)
  | [] => []
  | x :: xs => insertDesc x (stableSortDesc xs)

/-- Python slice `l[:m]` for a possibly negative bound. -/
def pySliceTo {α : Type} (l : List α) (m : Int) : List α :=
  if 0 ≤ m then l.take m.toNat else l.take ((l.length : Int) + m).toNat

/-- Python slice `l[m:]` for a possibly negative bound. -/
def pySliceFrom {α : Type} (l : List α) (m : Int) : List α :=
  if 0 ≤ m then l.drop m.toNat else l.drop ((l.length : Int) + m).toNat

/-- `S3ContingencyTable._top(tl, length, least)`: if the list has more than
`length` entries, sort by value descending (stable), reverse in `least`
mode, keep the first `length - 1` entries and append one
`("Others", sum of the rest)` entry; otherwise return the list unchanged.
The label is the translated string `"Others"`, modelled literally.  The
`try/except (TypeError, ValueError)` wrapper is omitted: with integer
values neither the comparator, the slicing nor the summation can raise. -/
def pyTop (tl : List (String × Int)) (length : Int) (least : Bool) :
    List (String × Int) :=
  if (tl.length : Int) > length then
    let m : Int := length - 1
    let l := stableSortDesc tl
    let l := if least then l.reverse else l
    let ts : String × Int :=
      ("Others", (pySliceFrom l m).foldl (fun s t => s + t.2) 0)
    pySliceTo l m ++ [ts]
  else tl

/-- The sum of the values of a (label, value) list. -/
def sumVals (l : List (String × Int)) : Int :=
  l.foldl (fun s t => s + t.2) 0

/-- Stable insertion into an ascending-sorted list (used only to state
what the spec claims `least` mode does). -/
def insertAsc (x : String × Int) : List (String × Int) → List (String × Int)
  | [] => [x]
  | y :: ys => if x.2 > y.2 then y :: insertAsc x ys else x :: y :: ys

/-- Modelled from the spec (section 4.8): ascending stable sort, ties kept
in original order — the order the claim asserts for `least` mode. -/
def stableSortAsc : List (String × Int) → List (String × Int)
  | [] => []
  | x :: xs => insertAsc x (stableSortAsc xs)

/-- Modelled from the spec (section 4.8): the Top-N reduction as the claim
states it for `least` mode — ascending stable sort with ties in original
order, keep `N - 1`, append the Others entry. -/
def specTopLeast (tl : List (String × Int)) (length : Int) :
    List (String × Int) :=
  if (tl.length : Int) > length then
    let m : Int := length - 1
    let l := stableSortAsc tl
    pySliceTo l m ++ [("Others", sumVals (pySliceFrom l m))]
  else tl


/-! ## Helper lemmas -/

theorem mem_firstDedupAux {α : Type} [DecidableEq α] (seen : List α) (l : List α) (a : α) :
    a ∈ firstDedupAux seen l ↔ a ∈ l ∧ a ∉ seen := by
  induction l generalizing seen with
  | nil => simp [firstDedupAux]
  | cons x xs ih =>
      simp only [firstDedupAux]
      by_cases hx : x ∈ seen
      · rw [if_pos hx, ih]
        have hax : a = x → a ∈ seen := fun h => h ▸ hx
        simp only [List.mem_cons]
        tauto
      · rw [if_neg hx]
        have hax : a = x → a ∉ seen := fun h => h ▸ hx
        simp only [List.mem_cons, ih, List.mem_cons]
        tauto

theorem mem_firstDedup {α : Type} [DecidableEq α] (l : List α) (a : α) :
    a ∈ firstDedup l ↔ a ∈ l := by
  simp [firstDedup, mem_firstDedupAux]

theorem nodup_firstDedupAux {α : Type} [DecidableEq α] (seen : List α) (l : List α) :
    (firstDedupAux seen l).Nodup := by
  induction l generalizing seen with
  | nil => simp [firstDedupAux]
  | cons x xs ih =>
      simp only [firstDedupAux]
      by_cases hx : x ∈ seen
      · rw [if_pos hx]; exact ih seen
      · rw [if_neg hx]
        refine List.Pairwise.cons ?_ (ih (x :: seen))
        intro b hb hxb
        exact ((mem_firstDedupAux _ _ _).mp hb).2 (hxb ▸ List.mem_cons_self x seen)

theorem nodup_firstDedup {α : Type} [DecidableEq α] (l : List α) :
    (firstDedup l).Nodup :=
  nodup_firstDedupAux [] l

theorem toFinset_firstDedup {α : Type} [DecidableEq α] (l : List α) :
    (firstDedup l).toFinset = l.toFinset := by
  ext a
  simp [mem_firstDedup]

theorem length_firstDedup_eq_card {α : Type} [DecidableEq α] (l : List α) :
    (firstDedup l).length = l.toFinset.card := by
  rw [← toFinset_firstDedup, List.toFinset_card_of_nodup (nodup_firstDedup l)]

/-- Membership characterization of the cartesian fan-out. -/
theorem mem_expand (it x : FlatItem) :
    x ∈ expand it ↔
      x.rowv ∈ expandOpt it.rowv ∧ x.colv ∈ expandOpt it.colv ∧
        x.pk ∈ expandVal it.pk := by
  cases x with
  | mk rv cv p =>
      simp only [expand, List.mem_flatMap, List.mem_map]
      constructor
      · rintro ⟨rv1, h1, cv1, h2, p1, h3, heq⟩
        cases heq
        exact ⟨h1, h2, h3⟩
      · rintro ⟨h1, h2, h3⟩
        exact ⟨rv, h1, cv, h2, p, h3, rfl⟩

theorem expandVal_ne_nil (v : PyVal) : expandVal v ≠ [] := by
  cases v with
  | atom a => simp [expandVal]
  | plist vs => cases vs <;> simp [expandVal]

theorem expandOpt_ne_nil (v : Option PyVal) : expandOpt v ≠ [] := by
  cases v with
  | none => simp [expandOpt]
  | some v =>
      simp only [expandOpt]
      intro h
      exact expandVal_ne_nil v (List.map_eq_nil_iff.mp h)

/-- A computation either succeeded or raised precisely `TypeError`; the
comparison and arithmetic primitives all satisfy this, which is what makes
the source's `except TypeError` recoveries exhaustive for non-empty input. -/
def okOrTE {α : Type} : Except PyErr α → Bool
  | .ok _ => true
  | .error .typeError => true
  | .error _ => false

theorem okOrTE_error {α : Type} (x : Except PyErr α) (h : okOrTE x = true)
    (e : PyErr) (hx : x = .error e) : e = .typeError := by
  subst hx
  cases e <;> first
    | rfl
    | simp [okOrTE] at h

theorem okOrTE_cases {α : Type} (x : Except PyErr α) (h : okOrTE x = true) :
    (∃ v, x = .ok v) ∨ x = .error .typeError := by
  cases x with
  | ok v => exact .inl ⟨v, rfl⟩
  | error e => cases e <;> first
      | exact .inr rfl
      | simp [okOrTE] at h

theorem atomCmp_okOrTE (x y : PyAtom) : okOrTE (atomCmp x y) = true := by
  cases x <;> cases y <;> rfl

theorem listCmp_okOrTE (xs ys : List PyAtom) : okOrTE (listCmp xs ys) = true := by
  induction xs generalizing ys with
  | nil => cases ys <;> rfl
  | cons x xs ih =>
      cases ys with
      | nil => rfl
      | cons y ys =>
          have h := atomCmp_okOrTE x y
          simp only [listCmp]
          cases hc : atomCmp x y with
          | error e => rw [hc] at h; exact h
          | ok c => cases c with
              | eq => exact ih ys
              | lt => rfl
              | gt => rfl

theorem pyCmp_okOrTE (a b : PyVal) : okOrTE (pyCmp a b) = true := by
  cases a with
  | atom x =>
      cases b with
      | atom y => exact atomCmp_okOrTE x y
      | plist ys => cases x <;> rfl
  | plist xs =>
      cases b with
      | atom y => cases y <;> rfl
      | plist ys => exact listCmp_okOrTE xs ys

theorem pyAdd_okOrTE (a b : PyVal) : okOrTE (pyAdd a b) = true := by
  cases a with
  | atom x =>
      cases b with
      | atom y => cases x <;> cases y <;> rfl
      | plist ys => cases x <;> rfl
  | plist xs =>
      cases b with
      | atom y => cases y <;> rfl
      | plist ys => rfl

theorem pyMinFold_okOrTE (m : PyVal) (l : List PyVal) :
    okOrTE (pyMinFold m l) = true := by
  induction l generalizing m with
  | nil => rfl
  | cons x xs ih =>
      cases hc : pyCmp x m with
      | error e =>
          have h := pyCmp_okOrTE x m
          rw [hc] at h
          have he : e = .typeError := okOrTE_error _ h e rfl
          subst he
          simp only [pyMinFold, hc]
          rfl
      | ok c => simp only [pyMinFold, hc]; exact ih _

theorem pyMaxFold_okOrTE (m : PyVal) (l : List PyVal) :
    okOrTE (pyMaxFold m l) = true := by
  induction l generalizing m with
  | nil => rfl
  | cons x xs ih =>
      cases hc : pyCmp x m with
      | error e =>
          have h := pyCmp_okOrTE x m
          rw [hc] at h
          have he : e = .typeError := okOrTE_error _ h e rfl
          subst he
          simp only [pyMaxFold, hc]
          rfl
      | ok c => simp only [pyMaxFold, hc]; exact ih _

theorem pySumAux_okOrTE (acc : PyVal) (l : List PyVal) :
    okOrTE (pySumAux acc l) = true := by
  induction l generalizing acc with
  | nil => rfl
  | cons x xs ih =>
      have h := pyAdd_okOrTE acc x
      simp only [pySumAux]
      cases hc : pyAdd acc x with
      | error e => rw [hc] at h; exact h
      | ok a => exact ih _

theorem pyMin_okOrTE_of_ne_nil (vs : List PyVal) (h : vs ≠ []) :
    okOrTE (pyMin vs) = true := by
  cases vs with
  | nil => exact absurd rfl h
  | cons v vs => exact pyMinFold_okOrTE v vs

theorem pyMax_okOrTE_of_ne_nil (vs : List PyVal) (h : vs ≠ []) :
    okOrTE (pyMax vs) = true := by
  cases vs with
  | nil => exact absurd rfl h
  | cons v vs => exact pyMaxFold_okOrTE v vs

theorem pySum_okOrTE (vs : List PyVal) : okOrTE (pySum vs) = true :=
  pySumAux_okOrTE (pint 0) vs

/-! ## Claims -/

/-- The three records of the specification's section-8 example:
`[{id:1,region:"A",status:"open"}, {id:2,region:"A",status:"closed"},
{id:3,region:"B",status:"open"}]` with `rows="region"`, `cols="status"`. -/
def c1records : List Rec :=
  [{ pk := 1, rowv := some (pstr "A"), colv := some (pstr "open") },
   { pk := 2, rowv := some (pstr "A"), colv := some (pstr "closed") },
   { pk := 3, rowv := some (pstr "B"), colv := some (pstr "open") }]

/-- C1: evaluating the engine on the section-8 example with the single
layer `(none, "count")`.  The axes and the four cell aggregates come out
exactly as the claim states (rowAxis `[A,B]`, colAxis `[open,closed]`,
cells 1/1/1/0), but the totals do not: the code computes row totals
`A=3, B=1` (the claim says `A=2`), column totals `open=1, closed=1` (the
claim says `open=2`), and grand total `5` (the claim says `3`).  The root
cause is the `fact is None` branch of `_add_layer` (lines 929-934): it
rebinds the local `fact` to the primary key so only the first cell of the
layer takes this branch, rebinds `row_values` to alias `row[RECORDS]`
(double-counting the first row), leaves `col[VALUES]` of the first cell's
column forever empty, and rebinds `all_values` to the full key list which
later cells extend again. -/
theorem c1_example_report_computed :
    buildReport ⟨true, true⟩ c1records [(none, some "count")] = .ok {
      empty := false,
      rowAxis := [some (pstr "A"), some (pstr "B")],
      colAxis := [some (pstr "open"), some (pstr "closed")],
      numrows := 2, numcols := 2,
      cells := [[[pint 1], [pint 2]], [[pint 3], []]],
      layerOuts := [{
        cellVals := [[.acount 1, .acount 1], [.acount 1, .acount 0]],
        rowTotals := [.acount 3, .acount 1],
        colTotals := [.acount 1, .acount 1],
        grandTotal := .acount 5 }] } := by
  decide

/-- C2 counterexample: with neither rows nor cols the module refuses
construction outright — `__init__` raises `SyntaxError` ("No rows or
columns for report specified", lines 610-611) on a five-record input with
a `(none, "count")` layer, instead of building a single-bucket report with
grand total 5 as the claim asserts. -/
theorem c2_nodim_refused_cex :
    buildReport ⟨false, false⟩
      [{ pk := 1 }, { pk := 2 }, { pk := 3 }, { pk := 4 }, { pk := 5 }]
      [(none, some "count")] = .error .syntaxError := by
  decide

/-- C2 amended: constructing a report with neither rows nor cols always
raises `SyntaxError`, whatever the records and layers; the module never
reaches the single-sentinel-axis stage in this case. -/
theorem c2_nodim_always_syntaxError (records : List Rec)
    (layers : List (Option FactSel × Option String)) :
    buildReport ⟨false, false⟩ records layers = .error .syntaxError := rfl

/-- C3 counterexample: aggregating the empty value sequence with method
`"min"` raises — Python's `min([])` raises `ValueError`, and the `min`
branch of `_aggregate` catches only `TypeError` (line 994), so the claim
that the aggregation function never raises on empty input is false. -/
theorem c3_empty_min_raises_cex :
    pyAggregate [] (some "min") = .error .valueError := by
  decide

/-- C3 amended: on the empty value sequence the aggregation function
returns `None` for `list`, `0` for `count` and for `sum` (Python's
`sum([])` is the integer `0`, not `None`), `0.0` for `avg`, and raises an
uncaught `ValueError` for `min` and for `max` (the legacy
`except TypeError, ValueError:` of lines 1000/1006 catches only
`TypeError`). -/
theorem c3_empty_aggregate_behaviour :
    pyAggregate [] (some "list") = .ok .anone
  ∧ pyAggregate [] (some "count") = .ok (.acount 0)
  ∧ pyAggregate [] (some "min") = .error .valueError
  ∧ pyAggregate [] (some "max") = .error .valueError
  ∧ pyAggregate [] (some "sum") = .ok (.aval (pint 0))
  ∧ pyAggregate [] (some "avg") = .ok (.aavg 0) := by
  refine ⟨?_, ?_, ?_, ?_, ?_, ?_⟩ <;> decide

/-- C4 counterexample: a layer whose method is `"median"` does not degrade
to an all-`None` layer — `_add_layer` raises `SyntaxError` ("Unsupported
aggregation method", lines 857-858) before any aggregation, so the whole
report construction aborts instead of continuing. -/
theorem c4_unknown_method_aborts_cex :
    buildReport ⟨true, true⟩
      [{ pk := 1, rowv := some (pstr "A"), colv := some (pstr "open") }]
      [(none, some "median")] = .error .syntaxError := by
  decide

/-- C4 amended: the aggregation function `_aggregate` itself returns
`None` and never raises for a method outside the supported set — provided
the method is not a substring of `"avg"`, because the source's
`method in ("avg")` test is a substring test on a plain string — but
`_add_layer` refuses any method outside `METHODS` with `SyntaxError`
before aggregating, so report construction aborts rather than continuing
with a `None` layer. -/
theorem c4_unknown_method_amended (values : List PyVal) (m : String)
    (h1 : m ∉ METHODS) (h2 : strIn m "avg" = false) :
    pyAggregate values (some m) = .ok .anone
  ∧ ∀ (cfg : Cfg) (records : List Rec) (numrows numcols : Nat)
      (fact : Option FactSel),
      addLayer cfg records numrows numcols fact (some m) =
        .error .syntaxError := by
  simp only [METHODS, List.mem_cons, List.not_mem_nil, or_false] at h1
  push_neg at h1
  obtain ⟨hl, hc, hmin, hmax, hsum, havg⟩ := h1
  constructor
  · simp [pyAggregate, hl, hc, hmin, hmax, hsum, h2]
  · intro cfg records numrows numcols fact
    simp [addLayer, METHODS, hl, hc, hmin, hmax, hsum, havg]

/-- C4 witness: the amended statement applied at the claim's own instance
`aggregate([1,2,3], "median")` and at a concrete `_add_layer` call. -/
theorem c4_unknown_method_amended_witness :
    pyAggregate [pint 1, pint 2, pint 3] (some "median") = .ok .anone
  ∧ addLayer ⟨true, true⟩ [] 1 1 none (some "median") = .error .syntaxError := by
  have h := c4_unknown_method_amended [pint 1, pint 2, pint 3] "median"
    (by decide) (by decide)
  exact ⟨h.1, h.2 ⟨true, true⟩ [] 1 1 none⟩

/-- C10: a falsy grouping value — the integer 0 (Python 2 booleans are
integers, so `False` is this same case), the empty string, `None` (the
placeholder of an empty multi-valued field) — is displayed in the axis
header as `None` exactly like the `"__NONE__"` missing-value sentinel,
because line 694/702 computes `v != "__NONE__" and v or None`; a truthy
value is kept.  At the report interface a record whose dimension value is
the real value 0 is therefore indistinguishable from a record with a
missing dimension value: both produce `rowAxis = [None]`. -/
theorem c10_falsy_axis_value :
    axisVal (pint 0) = none
  ∧ axisVal (pstr "") = none
  ∧ axisVal pnone = none
  ∧ axisVal (pstr "__NONE__") = none
  ∧ axisVal (pint 1) = some (pint 1)
  ∧ (buildReport ⟨true, false⟩ [{ pk := 1, rowv := some (pint 0) }]
      [(none, some "count")]).map Report.rowAxis =
    (buildReport ⟨true, false⟩ [{ pk := 1 }]
      [(none, some "count")]).map Report.rowAxis
  ∧ (buildReport ⟨true, false⟩ [{ pk := 1, rowv := some (pint 0) }]
      [(none, some "count")]).map Report.rowAxis = .ok [none] := by
  refine ⟨?_, ?_, ?_, ?_, ?_, ?_, ?_⟩ <;> decide

/-- C8 counterexample: in `least` mode ties do NOT keep their original
order — the source sorts descending and then reverses (lines 1312-1314),
so among the tied `("b",1)` and `("c",1)` the later `"c"` is kept, while
the claimed ascending stable sort (`specTopLeast`) keeps `"b"`. -/
theorem c8_least_ties_cex :
    pyTop [("a", 5), ("b", 1), ("c", 1)] 2 true = [("c", 1), ("Others", 6)]
  ∧ specTopLeast [("a", 5), ("b", 1), ("c", 1)] 2 = [("b", 1), ("Others", 6)]
  ∧ pyTop [("a", 5), ("b", 1), ("c", 1)] 2 true ≠
      specTopLeast [("a", 5), ("b", 1), ("c", 1)] 2 := by
  refine ⟨?_, ?_, ?_⟩ <;> decide

/-- Unfolding of the `min` branch of `_aggregate`. -/
theorem pyAggregate_min_eq (vs : List PyVal) :
    pyAggregate vs (some "min") =
      (match pyMin vs with
       | .ok v => .ok (.aval v)
       | .error .typeError => .ok .anone
       | .error e => .error e) := by
  simp [pyAggregate]

/-- Unfolding of the `max` branch of `_aggregate`. -/
theorem pyAggregate_max_eq (vs : List PyVal) :
    pyAggregate vs (some "max") =
      (match pyMax vs with
       | .ok v => .ok (.aval v)
       | .error .typeError => .ok .anone
       | .error e => .error e) := by
  simp [pyAggregate]

/-- Unfolding of the `sum` branch of `_aggregate`. -/
theorem pyAggregate_sum_eq (vs : List PyVal) :
    pyAggregate vs (some "sum") =
      (match pySum vs with
       | .ok v => .ok (.aval v)
       | .error .typeError => .ok .anone
       | .error e => .error e) := by
  simp [pyAggregate]

/-- Unfolding of the `avg` branch of `_aggregate` for non-empty input. -/
theorem pyAggregate_avg_eq (vs : List PyVal) (hlen : vs.length ≠ 0) :
    pyAggregate vs (some "avg") =
      (match pySum vs with
       | .ok (.atom (.aint n)) => .ok (.aavg ((n : Rat) / (vs.length : Rat)))
       | .ok _ => .ok .anone
       | .error .typeError => .ok .anone
       | .error e => .error e) := by
  have hin : strIn "avg" "avg" = true := by decide
  simp [pyAggregate, hlen, hin]

/-- C5: on any non-empty value sequence, the four order/arithmetic methods
never let an exception surface from `_aggregate` — the only failures their
primitives can raise on non-empty input are `TypeError`s, which the except
clauses catch — and whenever the comparison underlying `min`/`max`, or the
summation underlying `sum`/`avg`, fails on incompatibly-typed elements,
that aggregate is recovered locally to `None`. -/
theorem c5_mixed_type_recovery (vs : List PyVal) (hne : vs ≠ []) :
    ((pyAggregate vs (some "min")).isOk = true
   ∧ (pyAggregate vs (some "max")).isOk = true
   ∧ (pyAggregate vs (some "sum")).isOk = true
   ∧ (pyAggregate vs (some "avg")).isOk = true)
  ∧ (pyMin vs = .error .typeError → pyAggregate vs (some "min") = .ok .anone)
  ∧ (pyMax vs = .error .typeError → pyAggregate vs (some "max") = .ok .anone)
  ∧ (pySum vs = .error .typeError →
        pyAggregate vs (some "sum") = .ok .anone
      ∧ pyAggregate vs (some "avg") = .ok .anone) := by
  have hlen : vs.length ≠ 0 := fun h => hne (List.length_eq_zero.mp h)
  refine ⟨⟨?_, ?_, ?_, ?_⟩, ?_, ?_, ?_⟩
  · rw [pyAggregate_min_eq]
    rcases okOrTE_cases _ (pyMin_okOrTE_of_ne_nil vs hne) with ⟨v, hv⟩ | hv <;>
      rw [hv] <;> rfl
  · rw [pyAggregate_max_eq]
    rcases okOrTE_cases _ (pyMax_okOrTE_of_ne_nil vs hne) with ⟨v, hv⟩ | hv <;>
      rw [hv] <;> rfl
  · rw [pyAggregate_sum_eq]
    rcases okOrTE_cases _ (pySum_okOrTE vs) with ⟨v, hv⟩ | hv <;>
      rw [hv] <;> rfl
  · rw [pyAggregate_avg_eq vs hlen]
    rcases okOrTE_cases _ (pySum_okOrTE vs) with ⟨v, hv⟩ | hv
    · rw [hv]
      cases v with
      | atom a => cases a <;> rfl
      | plist l => rfl
    · rw [hv]; rfl
  · intro h; rw [pyAggregate_min_eq, h]
  · intro h; rw [pyAggregate_max_eq, h]
  · intro h
    refine ⟨?_, ?_⟩
    · rw [pyAggregate_sum_eq, h]
    · rw [pyAggregate_avg_eq vs hlen, h]

/-- C5 witness: `[date, int]` is a sequence whose elements can neither be
compared nor added — `min`, `max`, `sum` and `avg` all recover to `None`
without an exception surfacing. -/
theorem c5_mixed_type_recovery_witness :
    pyAggregate [pdate 0, pint 1] (some "min") = .ok .anone
  ∧ pyAggregate [pdate 0, pint 1] (some "max") = .ok .anone
  ∧ pyAggregate [pdate 0, pint 1] (some "sum") = .ok .anone
  ∧ pyAggregate [pdate 0, pint 1] (some "avg") = .ok .anone := by
  have h := c5_mixed_type_recovery [pdate 0, pint 1] (by decide)
  exact ⟨h.2.1 (by decide), h.2.2.1 (by decide),
         (h.2.2.2 (by decide)).1, (h.2.2.2 (by decide)).2⟩

/-- The collected cell values before the method-dependent deduplication:
extraction (lines 936-942) followed by the multi-value flattening
(lines 943-944). -/
def collectFlat (records : List Rec) (fs : FactSel) (ids : List PyVal) :
    Except PyErr (List PyVal) :=
  match collectRaw records fs ids with
  | .error e => .error e
  | .ok l => flattenStep l

theorem collectValues_eq (records : List Rec) (fs : FactSel) (m : String)
    (ids : List PyVal) (vs : List PyVal)
    (h : collectFlat records fs ids = .ok vs) :
    collectValues records fs m ids =
      .ok (if m = "list" ∨ m = "count" then firstDedup vs else vs) := by
  cases h1 : collectRaw records fs ids with
  | error e => simp [collectFlat, h1] at h
  | ok l =>
      cases h2 : flattenStep l with
      | error e => simp [collectFlat, h1, h2] at h
      | ok vs2 =>
          simp only [collectFlat, h1, h2, Except.ok.injEq] at h
          subst h
          simp only [collectValues, h1, h2]
          split <;> rfl

theorem pyAggregate_count_eq (l : List PyVal) :
    pyAggregate l (some "count") = .ok (.acount l.length) := by
  simp [pyAggregate]

/-- C6: for a layer with a resolved fact, the value collection handed to
the aggregation function is deduplicated with set semantics for the
methods `list` and `count` — so the composed count aggregate equals the
number of DISTINCT collected fact values, and two records sharing a fact
value count as one — while for `min`, `max`, `sum` and `avg` the collected
values are passed through unchanged. -/
theorem c6_dedup_semantics (records : List Rec) (fs : FactSel)
    (ids : List PyVal) (vs : List PyVal)
    (h : collectFlat records fs ids = .ok vs) :
    collectValues records fs "list" ids = .ok (firstDedup vs)
  ∧ collectValues records fs "count" ids = .ok (firstDedup vs)
  ∧ (collectValues records fs "min" ids = .ok vs
   ∧ collectValues records fs "max" ids = .ok vs
   ∧ collectValues records fs "sum" ids = .ok vs
   ∧ collectValues records fs "avg" ids = .ok vs)
  ∧ (firstDedup vs).Nodup
  ∧ (∀ a, a ∈ firstDedup vs ↔ a ∈ vs)
  ∧ (match collectValues records fs "count" ids with
     | .ok l => pyAggregate l (some "count")
     | .error e => .error e) = .ok (.acount vs.toFinset.card) := by
  refine ⟨?_, ?_, ⟨?_, ?_, ?_, ?_⟩, nodup_firstDedup vs, mem_firstDedup vs, ?_⟩
  · rw [collectValues_eq records fs _ ids vs h]; simp
  · rw [collectValues_eq records fs _ ids vs h]; simp
  · rw [collectValues_eq records fs _ ids vs h]; simp
  · rw [collectValues_eq records fs _ ids vs h]; simp
  · rw [collectValues_eq records fs _ ids vs h]; simp
  · rw [collectValues_eq records fs _ ids vs h]; simp
  · rw [collectValues_eq records fs _ ids vs h,
        if_pos (Or.inr rfl : ("count" : String) = "list" ∨ "count" = "count")]
    show pyAggregate (firstDedup vs) (some "count") = .ok (.acount vs.toFinset.card)
    rw [pyAggregate_count_eq, length_firstDedup_eq_card]

/-- Records for the C6 witness: three records whose fact values are
`"a"`, `"a"`, `"b"`. -/
def c6records : List Rec :=
  [{ pk := 1, factv := some (pstr "a") },
   { pk := 2, factv := some (pstr "a") },
   { pk := 3, factv := some (pstr "b") }]

/-- C6 witness: collecting `["a","a","b"]` for a `count` layer dedupes to
`["a","b"]` and the composed aggregate is 2, the claim's own example. -/
theorem c6_dedup_semantics_witness :
    collectValues c6records .factf "count" [pint 1, pint 2, pint 3] =
      .ok [pstr "a", pstr "b"]
  ∧ (match collectValues c6records .factf "count" [pint 1, pint 2, pint 3] with
     | .ok l => pyAggregate l (some "count")
     | .error e => .error e) = .ok (.acount 2)
  ∧ collectValues c6records .factf "sum" [pint 1, pint 2, pint 3] =
      .ok [pstr "a", pstr "a", pstr "b"] := by
  have h := c6_dedup_semantics c6records .factf [pint 1, pint 2, pint 3]
    [pstr "a", pstr "a", pstr "b"] (by decide)
  exact ⟨h.2.1.trans (by decide), h.2.2.2.2.2.trans (by decide),
         h.2.2.1.2.2.1⟩

theorem length_flatMap_map {α β : Type} (ys : List α) (zs : List β)
    (g : α → β → FlatItem) :
    (ys.flatMap (fun y => zs.map (g y))).length = ys.length * zs.length := by
  induction ys with
  | nil => simp
  | cons y ys ih => simp [ih, Nat.succ_mul, Nat.add_comm]

theorem length_flatMap_flatMap {α β γ : Type} (xs : List α) (ys : List β)
    (zs : List γ) (f : α → β → γ → FlatItem) :
    (xs.flatMap (fun x => ys.flatMap (fun y => zs.map (f x y)))).length =
      xs.length * (ys.length * zs.length) := by
  induction xs with
  | nil => simp
  | cons x xs ih =>
      rw [List.flatMap_cons, List.length_append, ih, length_flatMap_map,
          List.length_cons]
      ring

/-- C9: `_expand` on a flat item is the cartesian fan-out over all its
fields — it never returns the empty sequence (a record is never silently
excluded), its length is the product of the per-field choice counts, an
item belongs to the result exactly when each of its fields is one of the
choices of the corresponding input field (one output item per combination),
and an empty multi-valued field contributes the single `None` placeholder
to every output item. -/
theorem c9_expand_cartesian (it : FlatItem) :
    expand it ≠ []
  ∧ (expand it).length =
      (expandOpt it.rowv).length *
        ((expandOpt it.colv).length * (expandVal it.pk).length)
  ∧ (∀ x : FlatItem, x ∈ expand it ↔
      (x.rowv ∈ expandOpt it.rowv ∧ x.colv ∈ expandOpt it.colv ∧
       x.pk ∈ expandVal it.pk))
  ∧ (it.rowv = some (.plist []) → ∀ x ∈ expand it, x.rowv = some pnone) := by
  have hlen : (expand it).length =
      (expandOpt it.rowv).length *
        ((expandOpt it.colv).length * (expandVal it.pk).length) := by
    simp only [expand]
    exact length_flatMap_flatMap _ _ _ _
  refine ⟨?_, hlen, fun x => mem_expand it x, ?_⟩
  · intro hnil
    have h0 : (expand it).length = 0 := by rw [hnil]; rfl
    rw [hlen] at h0
    rcases Nat.mul_eq_zero.mp h0 with h | h
    · exact expandOpt_ne_nil it.rowv (List.length_eq_zero.mp h)
    · rcases Nat.mul_eq_zero.mp h with h | h
      · exact expandOpt_ne_nil it.colv (List.length_eq_zero.mp h)
      · exact expandVal_ne_nil it.pk (List.length_eq_zero.mp h)
  · intro h x hx
    have hm := (mem_expand it x).mp hx
    rw [h] at hm
    simpa [expandOpt, expandVal] using hm.1

/-- C9 witness: a two-valued multi-valued dimension fans one item out into
exactly two items. -/
theorem c9_expand_cartesian_witness :
    expand ⟨some (.plist [.astr "a", .astr "b"]), some (pstr "x"), pint 1⟩ ≠ []
  ∧ (expand ⟨some (.plist [.astr "a", .astr "b"]), some (pstr "x"), pint 1⟩).length
      = 2 := by
  have h := c9_expand_cartesian
    ⟨some (.plist [.astr "a", .astr "b"]), some (pstr "x"), pint 1⟩
  exact ⟨h.1, h.2.1.trans (by decide)⟩

theorem sumVals_aux (l : List (String × Int)) (a : Int) :
    l.foldl (fun s t => s + t.2) a = a + (l.map Prod.snd).sum := by
  induction l generalizing a with
  | nil => simp
  | cons x xs ih => simp [ih, add_assoc]

theorem sumVals_eq (l : List (String × Int)) :
    sumVals l = (l.map Prod.snd).sum := by
  simpa [sumVals] using sumVals_aux l 0

theorem sumVals_append (a b : List (String × Int)) :
    sumVals (a ++ b) = sumVals a + sumVals b := by
  simp [sumVals_eq]

theorem mem_insertDesc (x y : String × Int) (l : List (String × Int)) :
    y ∈ insertDesc x l ↔ y = x ∨ y ∈ l := by
  induction l with
  | nil => simp [insertDesc]
  | cons z zs ih =>
      simp only [insertDesc]
      split
      · simp only [List.mem_cons, ih]
        tauto
      · simp [List.mem_cons]

theorem insertDesc_perm (x : String × Int) (l : List (String × Int)) :
    (insertDesc x l).Perm (x :: l) := by
  induction l with
  | nil => exact List.Perm.refl _
  | cons y ys ih =>
      simp only [insertDesc]
      split
      · exact ((ih.cons y).trans (List.Perm.swap x y ys))
      · exact List.Perm.refl _

theorem stableSortDesc_perm (l : List (String × Int)) :
    (stableSortDesc l).Perm l := by
  induction l with
  | nil => exact List.Perm.refl _
  | cons x xs ih =>
      exact (insertDesc_perm x (stableSortDesc xs)).trans (ih.cons x)

theorem insertDesc_pairwise (x : String × Int) (l : List (String × Int))
    (h : l.Pairwise (fun a b => b.2 ≤ a.2)) :
    (insertDesc x l).Pairwise (fun a b => b.2 ≤ a.2) := by
  induction l with
  | nil => simp [insertDesc]
  | cons y ys ih =>
      rcases List.pairwise_cons.mp h with ⟨hy, hys⟩
      simp only [insertDesc]
      split
      · rename_i hlt
        refine List.pairwise_cons.mpr ⟨?_, ih hys⟩
        intro b hb
        rcases (mem_insertDesc x b ys).mp hb with rfl | hb
        · exact le_of_lt hlt
        · exact hy b hb
      · rename_i hnlt
        refine List.pairwise_cons.mpr ⟨?_, h⟩
        intro b hb
        rcases List.mem_cons.mp hb with rfl | hb
        · exact le_of_not_lt hnlt
        · exact le_trans (hy b hb) (le_of_not_lt hnlt)

theorem stableSortDesc_pairwise (l : List (String × Int)) :
    (stableSortDesc l).Pairwise (fun a b => b.2 ≤ a.2) := by
  induction l with
  | nil => simp [stableSortDesc]
  | cons x xs ih => exact insertDesc_pairwise x (stableSortDesc xs) ih

/-- C8 amended: for `N ≥ 1` and more than `N` entries the reduction
returns exactly `N` entries — the first `N−1` entries of the stable
descending-by-value sort, reversed when `least` is requested (so in
`least` mode ties appear in reversed original order), followed by a single
`("Others", sum of the remaining values)` entry; the total value sum is
preserved, the kept entries are sorted (descending, or ascending in
`least` mode), every dropped value is bounded by every kept value, and a
sequence of at most `N` entries is returned unchanged. -/
theorem c8_topn_amended (tl : List (String × Int)) (N : Int) (least : Bool) :
    ((tl.length : Int) ≤ N → pyTop tl N least = tl)
  ∧ (1 ≤ N → (tl.length : Int) > N →
      (pyTop tl N least).length = N.toNat
    ∧ sumVals (pyTop tl N least) = sumVals tl
    ∧ pyTop tl N least =
        (if least then (stableSortDesc tl).reverse else stableSortDesc tl).take
            (N - 1).toNat ++
          [("Others",
            sumVals ((if least then (stableSortDesc tl).reverse
                      else stableSortDesc tl).drop (N - 1).toNat))]
    ∧ (least = false →
        (pyTop tl N least).dropLast.Pairwise (fun a b => b.2 ≤ a.2)
      ∧ ∀ x ∈ (pyTop tl N least).dropLast,
        ∀ y ∈ (stableSortDesc tl).drop (N - 1).toNat, y.2 ≤ x.2)
    ∧ (least = true →
        (pyTop tl N least).dropLast.Pairwise (fun a b => a.2 ≤ b.2)
      ∧ ∀ x ∈ (pyTop tl N least).dropLast,
        ∀ y ∈ ((stableSortDesc tl).reverse).drop (N - 1).toNat,
          x.2 ≤ y.2)) := by
  constructor
  · intro hle
    have hng : ¬ ((tl.length : Int) > N) := not_lt.mpr hle
    simp [pyTop, hng]
  · intro h1 h2
    have h0 : (0 : Int) ≤ N - 1 := by omega
    set S := stableSortDesc tl with hS
    set L := if least then S.reverse else S with hL
    set k := (N - 1).toNat with hk
    have hSlen : S.length = tl.length := (stableSortDesc_perm tl).length_eq
    have hLlen : L.length = tl.length := by
      rw [hL]; split <;> simp [hSlen]
    have heq : pyTop tl N least =
        L.take k ++ [("Others", sumVals (L.drop k))] := by
      simp only [pyTop, if_pos h2, pySliceTo, pySliceFrom, if_pos h0,
        ← hS, ← hL, ← hk]
      rfl
    have hkb : k < tl.length := by omega
    have hLsum : sumVals L = sumVals tl := by
      have hs : sumVals S = sumVals tl := by
        rw [sumVals_eq, sumVals_eq]
        exact ((stableSortDesc_perm tl).map Prod.snd).sum_eq
      rw [hL]; split
      · rw [sumVals_eq, List.map_reverse, List.sum_reverse, ← sumVals_eq]
        exact hs
      · exact hs
    have hsplit : sumVals (L.take k) + sumVals (L.drop k) = sumVals L := by
      rw [← sumVals_append, List.take_append_drop]
    have hdrop : (pyTop tl N least).dropLast = L.take k := by
      rw [heq, List.dropLast_concat]
    have hSpair : S.Pairwise (fun a b => b.2 ≤ a.2) := stableSortDesc_pairwise tl
    refine ⟨?_, ?_, ?_, ?_, ?_⟩
    · rw [heq, List.length_append, List.length_take, hLlen]
      simp only [List.length_cons, List.length_nil]
      omega
    · rw [heq, sumVals_append, ← hLsum, ← hsplit]
      simp [sumVals, add_assoc]
    · rw [heq, hL, hk]
    · intro hfalse
      subst hfalse
      have hLS : L = S := by rw [hL]; rfl
      constructor
      · rw [hdrop, hLS]
        exact hSpair.sublist (List.take_sublist k S)
      · intro x hx y hy
        rw [hdrop, hLS] at hx
        have hsp : List.Pairwise (fun a b => b.2 ≤ a.2)
            (S.take k ++ S.drop k) := by
          rw [List.take_append_drop]; exact hSpair
        exact (List.pairwise_append.mp hsp).2.2 x hx y hy
    · intro htrue
      subst htrue
      have hLS : L = S.reverse := by rw [hL]; rfl
      have hrevpair : S.reverse.Pairwise (fun a b => a.2 ≤ b.2) := by
        rw [List.pairwise_reverse]
        exact hSpair
      constructor
      · rw [hdrop, hLS]
        exact hrevpair.sublist (List.take_sublist k S.reverse)
      · intro x hx y hy
        rw [hdrop, hLS] at hx
        have hsp : List.Pairwise (fun a b => a.2 ≤ b.2)
            (S.reverse.take k ++ S.reverse.drop k) := by
          rw [List.take_append_drop]; exact hrevpair
        exact (List.pairwise_append.mp hsp).2.2 x hx y hy

/-- The section-8 instance for the C8 witness: twelve (label, value)
pairs. -/
def c8pairs : List (String × Int) :=
  [("l1", 10), ("l2", 3), ("l3", 7), ("l4", 1), ("l5", 9), ("l6", 2),
   ("l7", 8), ("l8", 4), ("l9", 6), ("l10", 5), ("l11", 12), ("l12", 11)]

/-- C8 witness: the amended statement at the section-8 instance — twelve
pairs with N = 5 give exactly 5 entries whose values sum to the original
total, and a short list is returned unchanged. -/
theorem c8_topn_amended_witness :
    (pyTop c8pairs 5 false).length = (5 : Int).toNat
  ∧ sumVals (pyTop c8pairs 5 false) = sumVals c8pairs
  ∧ pyTop [("a", 1), ("b", 2)] 5 false = [("a", 1), ("b", 2)] := by
  have h := c8_topn_amended c8pairs 5 false
  have h2 := c8_topn_amended [("a", 1), ("b", 2)] 5 false
  exact ⟨(h.2 (by decide) (by decide)).1, (h.2 (by decide) (by decide)).2.1,
         h2.1 (by decide)⟩

theorem itemsOf_mem_expand (cfg : Cfg) (records : List Rec) (it : FlatItem)
    (hit : it ∈ itemsOf cfg records) :
    ∃ r ∈ records, it ∈ expand (flatten cfg r) := by
  rw [itemsOf, mem_firstDedup] at hit
  exact List.mem_flatMap.mp hit

/-- With no rows dimension requested, every expanded item's rows field is
absent. -/
theorem itemsOf_rowv_none (cfg : Cfg) (records : List Rec)
    (h : cfg.useRows = false) (it : FlatItem) (hit : it ∈ itemsOf cfg records) :
    it.rowv = none := by
  obtain ⟨r, _, hexp⟩ := itemsOf_mem_expand cfg records it hit
  have h1 := ((mem_expand _ it).mp hexp).1
  simpa [flatten, h, expandOpt] using h1

/-- With no cols dimension requested, every expanded item's cols field is
absent. -/
theorem itemsOf_colv_none (cfg : Cfg) (records : List Rec)
    (h : cfg.useCols = false) (it : FlatItem) (hit : it ∈ itemsOf cfg records) :
    it.colv = none := by
  obtain ⟨r, _, hexp⟩ := itemsOf_mem_expand cfg records it hit
  have h1 := ((mem_expand _ it).mp hexp).2.1
  simpa [flatten, h, expandOpt] using h1

/-- With a rows dimension requested, every expanded item carries a rows
value, and that value is one of the axis keys. -/
theorem itemsOf_rowv_some (cfg : Cfg) (records : List Rec)
    (h : cfg.useRows = true) (it : FlatItem) (hit : it ∈ itemsOf cfg records) :
    ∃ k, it.rowv = some k ∧ k ∈ rowKeys cfg records := by
  obtain ⟨r, _, hexp⟩ := itemsOf_mem_expand cfg records it hit
  have h1 := ((mem_expand _ it).mp hexp).1
  simp only [flatten, h, if_pos, expandOpt, List.mem_map] at h1
  obtain ⟨k, _, hk⟩ := h1
  refine ⟨k, hk.symm, ?_⟩
  rw [rowKeys, mem_firstDedup]
  exact List.mem_filterMap.mpr ⟨it, hit, by rw [← hk]⟩

/-- With a cols dimension requested, every expanded item carries a cols
value, and that value is one of the axis keys. -/
theorem itemsOf_colv_some (cfg : Cfg) (records : List Rec)
    (h : cfg.useCols = true) (it : FlatItem) (hit : it ∈ itemsOf cfg records) :
    ∃ k, it.colv = some k ∧ k ∈ colKeys cfg records := by
  obtain ⟨r, _, hexp⟩ := itemsOf_mem_expand cfg records it hit
  have h1 := ((mem_expand _ it).mp hexp).2.1
  simp only [flatten, h, if_pos, expandOpt, List.mem_map] at h1
  obtain ⟨k, _, hk⟩ := h1
  refine ⟨k, hk.symm, ?_⟩
  rw [colKeys, mem_firstDedup]
  exact List.mem_filterMap.mpr ⟨it, hit, by rw [← hk]⟩

theorem exists_row_index (cfg : Cfg) (records : List Rec) (it : FlatItem)
    (hit : it ∈ itemsOf cfg records) :
    ∃ r, r < (if cfg.useRows then (rowKeys cfg records).length else 1)
    ∧ (!cfg.useRows || decide (it.rowv = (rowKeys cfg records).get? r)) = true := by
  cases h : cfg.useRows with
  | false => exact ⟨0, by simp [h], by simp [h]⟩
  | true =>
      obtain ⟨k, hk, hkmem⟩ := itemsOf_rowv_some cfg records h it hit
      obtain ⟨r, hr⟩ := List.mem_iff_get?.mp hkmem
      have hlt : r < (rowKeys cfg records).length := by
        by_contra hge
        rw [List.get?_eq_none.mpr (le_of_not_lt hge)] at hr
        exact absurd hr (by simp)
      refine ⟨r, by simp [h, hlt], ?_⟩
      simp only [Bool.not_true, Bool.false_or, decide_eq_true_eq]
      rw [hk, hr]

theorem exists_col_index (cfg : Cfg) (records : List Rec) (it : FlatItem)
    (hit : it ∈ itemsOf cfg records) :
    ∃ c, c < (if cfg.useCols then (colKeys cfg records).length else 1)
    ∧ (!cfg.useCols || decide (it.colv = (colKeys cfg records).get? c)) = true := by
  cases h : cfg.useCols with
  | false => exact ⟨0, by simp [h], by simp [h]⟩
  | true =>
      obtain ⟨k, hk, hkmem⟩ := itemsOf_colv_some cfg records h it hit
      obtain ⟨c, hc⟩ := List.mem_iff_get?.mp hkmem
      have hlt : c < (colKeys cfg records).length := by
        by_contra hge
        rw [List.get?_eq_none.mpr (le_of_not_lt hge)] at hc
        exact absurd hc (by simp)
      refine ⟨c, by simp [h, hlt], ?_⟩
      simp only [Bool.not_true, Bool.false_or, decide_eq_true_eq]
      rw [hk, hc]

/-- The record ids of one cell carry no duplicates: the expanded items are
deduplicated as whole items, and two distinct items of the same cell agree
on both dimension fields, so they must differ in the primary key. -/
theorem cellIds_nodup (cfg : Cfg) (records : List Rec) (r c : Nat) :
    (cellIds cfg records r c).Nodup := by
  have hnd : ((itemsOf cfg records).filter
      (inCell cfg (rowKeys cfg records) (colKeys cfg records) r c)).Nodup :=
    (nodup_firstDedup _).filter _
  refine hnd.map_on ?_
  intro x hx y hy hpk
  have hxf := List.mem_filter.mp hx
  have hyf := List.mem_filter.mp hy
  have hxc := hxf.2
  have hyc := hyf.2
  simp only [inCell, Bool.and_eq_true] at hxc hyc
  have hrow : x.rowv = y.rowv := by
    cases h : cfg.useRows with
    | false =>
        rw [itemsOf_rowv_none cfg records h x hxf.1,
            itemsOf_rowv_none cfg records h y hyf.1]
    | true =>
        have hx1 := hxc.1
        have hy1 := hyc.1
        rw [h] at hx1 hy1
        simp only [Bool.not_true, Bool.false_or, decide_eq_true_eq] at hx1 hy1
        rw [hx1, hy1]
  have hcol : x.colv = y.colv := by
    cases h : cfg.useCols with
    | false =>
        rw [itemsOf_colv_none cfg records h x hxf.1,
            itemsOf_colv_none cfg records h y hyf.1]
    | true =>
        have hx1 := hxc.2
        have hy1 := hyc.2
        rw [h] at hx1 hy1
        simp only [Bool.not_true, Bool.false_or, decide_eq_true_eq] at hx1 hy1
        rw [hx1, hy1]
  cases x
  cases y
  simp_all

/-- Inversion of `buildReport` on a successful non-empty construction:
the grid dimensions and the per-cell record-id matrix of the resulting
report. -/
theorem buildReport_ok_shape (cfg : Cfg) (records : List Rec)
    (layers : List (Option FactSel × Option String)) (rpt : Report)
    (hok : buildReport cfg records layers = .ok rpt) (hne : records ≠ []) :
    rpt.numrows = (if cfg.useRows then (rowKeys cfg records).length else 1)
  ∧ rpt.numcols = (if cfg.useCols then (colKeys cfg records).length else 1)
  ∧ rpt.cells = (List.range rpt.numrows).map (fun r =>
      (List.range rpt.numcols).map (fun c => cellIds cfg records r c)) := by
  have hdim : (!cfg.useRows && !cfg.useCols) = false := by
    cases h : (!cfg.useRows && !cfg.useCols) with
    | false => rfl
    | true => simp [buildReport, h] at hok
  have hrec : records.isEmpty = false := by
    cases h : records.isEmpty with
    | false => rfl
    | true => exact absurd (List.isEmpty_iff.mp h) hne
  simp only [buildReport, hdim, hrec, Bool.false_eq_true, if_false] at hok
  split at hok
  · exact absurd hok (by simp)
  · rename_i louts heq
    injection hok with hok
    subst hok
    exact ⟨rfl, rfl, rfl⟩

theorem sum_map_constNat {α : Type} (l : List α) (k : Nat) :
    (l.map (fun _ => k)).sum = l.length * k := by
  induction l with
  | nil => simp
  | cons x xs ih => simp [ih, Nat.succ_mul, Nat.add_comm]

/-- C7: in every report built from a non-empty record set, the cell matrix
is a full `numrows × numcols` grid (`numrows * numcols` cells in total),
every expanded record id lands in at least one cell, and the record ids
within each single cell are free of duplicates. -/
theorem c7_grid_invariants (cfg : Cfg) (records : List Rec)
    (layers : List (Option FactSel × Option String)) (rpt : Report)
    (hok : buildReport cfg records layers = .ok rpt) (hne : records ≠ []) :
    rpt.cells.length = rpt.numrows
  ∧ (∀ row ∈ rpt.cells, row.length = rpt.numcols)
  ∧ (rpt.cells.map List.length).sum = rpt.numrows * rpt.numcols
  ∧ (∀ it ∈ itemsOf cfg records, ∃ r c row cell,
        rpt.cells.get? r = some row ∧ row.get? c = some cell ∧ it.pk ∈ cell)
  ∧ (∀ row ∈ rpt.cells, ∀ cell ∈ row, cell.Nodup) := by
  obtain ⟨hnr, hnc, hcells⟩ := buildReport_ok_shape cfg records layers rpt hok hne
  refine ⟨?_, ?_, ?_, ?_, ?_⟩
  · rw [hcells]; simp
  · intro row hrow
    rw [hcells] at hrow
    obtain ⟨r, _, rfl⟩ := List.mem_map.mp hrow
    simp
  · rw [hcells, List.map_map]
    have hconst : (List.length ∘ fun r =>
        (List.range rpt.numcols).map (fun c => cellIds cfg records r c)) =
        fun _ => rpt.numcols := by
      funext r; simp
    rw [hconst, sum_map_constNat, List.length_range]
  · intro it hit
    obtain ⟨r, hrlt, hrmatch⟩ := exists_row_index cfg records it hit
    obtain ⟨c, hclt, hcmatch⟩ := exists_col_index cfg records it hit
    rw [← hnr] at hrlt
    rw [← hnc] at hclt
    refine ⟨r, c,
      (List.range rpt.numcols).map (fun c2 => cellIds cfg records r c2),
      cellIds cfg records r c, ?_, ?_, ?_⟩
    · rw [hcells, List.get?_map, List.get?_range hrlt]; rfl
    · rw [List.get?_map, List.get?_range hclt]; rfl
    · refine List.mem_map.mpr ⟨it, List.mem_filter.mpr ⟨hit, ?_⟩, rfl⟩
      simp only [inCell, Bool.and_eq_true]
      exact ⟨hrmatch, hcmatch⟩
  · intro row hrow cell hcell
    rw [hcells] at hrow
    obtain ⟨r, _, rfl⟩ := List.mem_map.mp hrow
    obtain ⟨c, _, rfl⟩ := List.mem_map.mp hcell
    exact cellIds_nodup cfg records r c

/-- The report that the C7 witness inspects: one record, one cell. -/
def c7rpt : Report :=
  { empty := false,
    rowAxis := [some (pstr "A")], colAxis := [some (pstr "open")],
    numrows := 1, numcols := 1,
    cells := [[[pint 1]]],
    layerOuts := [{ cellVals := [[.acount 1]], rowTotals := [.acount 1],
                    colTotals := [.acount 0], grandTotal := .acount 1 }] }

/-- C7 witness: the grid invariants instantiated on a concrete one-record
report. -/
theorem c7_grid_invariants_witness :
    c7rpt.cells.length = c7rpt.numrows
  ∧ (c7rpt.cells.map List.length).sum = c7rpt.numrows * c7rpt.numcols := by
  have h := c7_grid_invariants ⟨true, true⟩
    [{ pk := 1, rowv := some (pstr "A"), colv := some (pstr "open") }]
    [(none, some "count")] c7rpt (by decide) (by decide)
  exact ⟨h.1, h.2.2.1⟩
